import Mathlib

/-!
Shallow embedding of the statistical core of the HCT digital-biomarkers
repository: the statistical primitives and the group-comparison driver of
`Comparison.py`, and the event-anchored early-warning analyzer of
`event_linking_basic.py`.

Conventions of the embedding:
* Missing values (pandas NaN) in input series are `none` in a
  `List (Option ℚ)`; `dropna` is `List.filterMap id`.  Numbers are ℚ: the
  float computations of the source are embedded as exact rational
  arithmetic, and float NaN cannot arise after `dropna` (the source's
  `pd.notna`/`np.isnan` re-checks on already-clean data are therefore
  dropped, noted at each site).
* External numeric library primitives that are not code of this repository
  are parameters: `rt : ℚ → ℚ` stands for the square root used inside
  `pandas.Series.std` / `np.sqrt`, and `tt : List ℚ → List ℚ → ℚ × ℚ`
  stands for `scipy.stats.ttest_ind(..., equal_var=False)`.  Every theorem
  quantifies over them, so nothing proved depends on their behaviour.
* DataFrames are lists of rows; row order of the source frames is
  preserved, as pandas boolean-mask filtering preserves it.
-/

/-- `pd.Series(x).dropna()`: keep the non-missing values, in order. -/
def dropna (xs : List (Option ℚ)) : List ℚ := xs.filterMap id

/-- Mean of a pandas Series (`.mean()`); series in all call sites have
length ≥ 2, so the division is never by zero there. -/
def seriesMean (xs : List ℚ) : ℚ := xs.sum / xs.length

/-- Sample variance with Bessel's correction, `Series.var(ddof=1)`. -/
def seriesVar (xs : List ℚ) : ℚ :=
  (xs.map (fun x => (x - seriesMean xs) ^ 2)).sum / ((xs.length : ℚ) - 1)

/-- `Series.std(ddof=1)`: square root of the sample variance.  The square
root itself is `np.sqrt`, an external primitive, taken as the parameter
`rt`. -/
def seriesStd (rt : ℚ → ℚ) (xs : List ℚ) : ℚ := rt (seriesVar xs)

/-- The pooled variance `sp2` computed inside `cohen_d` of Comparison.py:
`((n1 - 1) * s1**2 + (n2 - 1) * s2**2) / (n1 + n2 - 2)` where `s1`, `s2`
are the sample standard deviations (squared again, as in the source). -/
def pooled_var (rt : ℚ → ℚ) (xs ys : List ℚ) : ℚ :=
  (((xs.length : ℚ) - 1) * (seriesStd rt xs) ^ 2 +
      ((ys.length : ℚ) - 1) * (seriesStd rt ys) ^ 2) /
    ((xs.length : ℚ) + (ys.length : ℚ) - 2)

/-- `cohen_d(x, y)` of Comparison.py: Cohen's d with pooled SD.  Returns
`none` (the source's `np.nan`) when either sample has fewer than 2
non-missing values or the pooled variance is non-positive.  The source
also tests `np.isnan(sp2)`, which cannot occur over ℚ. -/
def cohen_d (rt : ℚ → ℚ) (x y : List (Option ℚ)) : Option ℚ :=
  let xs := dropna x
  let ys := dropna y
  if xs.length < 2 ∨ ys.length < 2 then none
  else
    let sp2 := pooled_var rt xs ys
    if sp2 ≤ 0 then none
    else some ((seriesMean xs - seriesMean ys) / rt sp2)

/-- `welch_ttest(x, y)` of Comparison.py.  The actual Welch test is
`scipy.stats.ttest_ind(x, y, equal_var=False, nan_policy="omit")`, an
external library call taken as the parameter `tt`; the repository's own
code is the dropna and the insufficient-data guard returning
`(np.nan, np.nan)`, i.e. `(none, none)`. -/
def welch_ttest (tt : List ℚ → List ℚ → ℚ × ℚ) (x y : List (Option ℚ)) :
    Option ℚ × Option ℚ :=
  let xs := dropna x
  let ys := dropna y
  if xs.length < 2 ∨ ys.length < 2 then (none, none)
  else
    let r := tt xs ys
    (some r.1, some r.2)

/-- Insert index `i` into an index list already sorted by the values of
`ps`, keeping equal keys in their old relative order.  Together with the
fold in `argsort` this embeds `np.argsort(pvals)` (ascending; tie order in
the claims' inputs is immaterial as all values are distinct). -/
def insertIdx (ps : List ℚ) (i : ℕ) : List ℕ → List ℕ
  | [] => [i]
  | j :: js =>
      if ps.getD i 0 < ps.getD j 0 then i :: j :: js else j :: insertIdx ps i js

/-- `np.argsort(pvals)`: the indices of `pvals` sorted by value. -/
def argsort (ps : List ℚ) : List ℕ :=
  (List.range ps.length).foldr (insertIdx ps) []

/-- `np.minimum.accumulate`: forward running minimum. -/
def cumminFrom (acc : ℚ) : List ℚ → List ℚ
  | [] => []
  | x :: xs => min acc x :: cumminFrom (min acc x) xs

/-- Forward cumulative minimum of a list. -/
def cummin : List ℚ → List ℚ
  | [] => []
  | x :: xs => x :: cumminFrom x xs

/-- `bh_fdr(pvals, alpha)` of Comparison.py, line by line:
`order = np.argsort(pvals)`; `ranked = np.arange(1, n+1)`;
`p_adj[order] = np.minimum.accumulate((pvals[order] * n) / ranked[::-1])[::-1]`
(note: the source divides the ascending-sorted p-values by the reversed
ranks `n, n-1, ..., 1` and accumulates the minimum forwards, then reverses);
`p_adj = np.clip(p_adj, 0, 1)`; `reject = p_adj <= alpha`.
Returns `(reject, p_adj)` in the input order. -/
def bh_fdr (pvals : List ℚ) (alpha : ℚ) : List Bool × List ℚ :=
  let n := pvals.length
  let order := argsort pvals
  let sortedp := order.map fun i => pvals.getD i 0
  let scaled := (List.range n).map fun i => sortedp.getD i 0 * n / ((n : ℚ) - i)
  let accrev := (cummin scaled).reverse
  let p_adj0 := (List.range n).map fun j => accrev.getD (order.indexOf j) 0
  let p_adj := p_adj0.map fun q => min 1 (max 0 q)
  let reject := p_adj.map fun q => decide (q ≤ alpha)
  (reject, p_adj)

/-- Modelled from the spec: the Benjamini–Hochberg step-up procedure as the
spec states it (missing from the source, which deviates — see the C1
theorem): sort ascending, scale by `n / rank`, take the reverse cumulative
minimum (`p_adjusted[i] = min(p_adjusted[i+1], p[i] * n / rank[i])`), clip
to `[0, 1]`, scatter back to input order, and reject where the adjusted
value is at most `alpha`. -/
def bh_step_up (pvals : List ℚ) (alpha : ℚ) : List Bool × List ℚ :=
  let n := pvals.length
  let order := argsort pvals
  let sortedp := order.map fun i => pvals.getD i 0
  let scaled := (List.range n).map fun i => sortedp.getD i 0 * n / ((i : ℚ) + 1)
  let adjSorted := (cummin scaled.reverse).reverse
  let p_adj0 := (List.range n).map fun j => adjSorted.getD (order.indexOf j) 0
  let p_adj := p_adj0.map fun q => min 1 (max 0 q)
  let reject := p_adj.map fun q => decide (q ≤ alpha)
  (reject, p_adj)

/-! The group-comparison engine of Comparison.py.  A DataFrame is a column
list plus rows of cells; cells are numbers, strings (the categorical
grouping labels such as `role`), or NA. -/

/-- One cell of a mixed-dtype pandas DataFrame. -/
inductive Cell where
  | num (q : ℚ)
  | str (s : String)
  | na
deriving DecidableEq

/-- A pandas DataFrame: named columns, rows of `(column, cell)` pairs. -/
structure DFrame where
  cols : List String
  rows : List (List (String × Cell))
deriving DecidableEq

/-- Read one cell of a row; a column absent from the row reads as NA. -/
def cellOf (r : List (String × Cell)) (c : String) : Cell :=
  (r.lookup c).getD Cell.na

/-- `df.loc[df[group_col] == g, metric].dropna()`: the metric values of the
rows whose grouping cell equals the label `g`, missing values dropped
(metric columns are numeric; NA and non-numeric cells drop out). -/
def cohortVals (df : DFrame) (gcol g metric : String) : List ℚ :=
  (df.rows.filter fun r => cellOf r gcol == Cell.str g).filterMap fun r =>
    match cellOf r metric with
    | Cell.num q => some q
    | _ => none

/-- The summary dict built by `compare_groups` of Comparison.py.  `t_stat`,
`p_value` and `cohens_d` are optional because `welch_ttest` and `cohen_d`
return NaN (`none`) on degenerate inputs. -/
structure CompResult where
  metric : String
  group_col : String
  group1 : String
  group2 : String
  n1 : ℕ
  n2 : ℕ
  mean1 : ℚ
  sd1 : ℚ
  mean2 : ℚ
  sd2 : ℚ
  t_stat : Option ℚ
  p_value : Option ℚ
  cohens_d : Option ℚ
deriving DecidableEq

/-- `compare_groups(df, metric, group_col, g1, g2)` of Comparison.py:
`None` when the metric or grouping column is missing or either cohort has
fewer than 2 non-missing values, else the summary record. -/
def compare_groups (tt : List ℚ → List ℚ → ℚ × ℚ) (rt : ℚ → ℚ)
    (df : DFrame) (metric gcol g1 g2 : String) : Option CompResult :=
  if metric ∉ df.cols ∨ gcol ∉ df.cols then none
  else
    let a := cohortVals df gcol g1 metric
    let b := cohortVals df gcol g2 metric
    if a.length < 2 ∨ b.length < 2 then none
    else
      let tp := welch_ttest tt (a.map some) (b.map some)
      let d := cohen_d rt (a.map some) (b.map some)
      some
        { metric := metric, group_col := gcol, group1 := g1, group2 := g2
          n1 := a.length, n2 := b.length
          mean1 := seriesMean a, sd1 := seriesStd rt a
          mean2 := seriesMean b, sd2 := seriesStd rt b
          t_stat := tp.1, p_value := tp.2, cohens_d := d }

/-- The per-frame collection loop of Comparison.py
(`for m in metrics_exist: R = compare_groups(...); if R: results.append(R)`),
including the existence pre-filter
`[m for m in METRICS if m in df.columns]`. -/
def run_comparisons (tt : List ℚ → List ℚ → ℚ × ℚ) (rt : ℚ → ℚ)
    (df : DFrame) (metrics : List String) (gcol g1 g2 : String) :
    List CompResult :=
  (metrics.filter fun m => m ∈ df.cols).filterMap fun m =>
    compare_groups tt rt df m gcol g1 g2

/-- A collected result after the FDR block has written `p_adj_fdr` and
`reject_fdr` back onto it. -/
structure CorrectedResult where
  base : CompResult
  p_adj_fdr : ℚ
  reject_fdr : Bool
deriving DecidableEq

/-- The FDR write-back block of Comparison.py:
`reject, p_adj = bh_fdr(pvals); for i, r in enumerate(results):
r["p_adj_fdr"] = p_adj[i]; r["reject_fdr"] = bool(reject[i])`.
The p-values passed to `np.array` are the floats stored in each result;
in every collected result the stored option is `some` (the ≥ 2 guard ran),
so `Option.getD 0` merely extracts them. -/
def attach_fdr (rs : List CompResult) (alpha : ℚ) : List CorrectedResult :=
  let c := bh_fdr (rs.map fun r => r.p_value.getD 0) alpha
  (rs.zip (c.2.zip c.1)).map fun x => ⟨x.1, x.2.1, x.2.2⟩

/-- The results of all frames of one invocation, collected in order
(physio loop then psych loop of the `results_role` block). -/
def collected_results (tt : List ℚ → List ℚ → ℚ × ℚ) (rt : ℚ → ℚ)
    (tables : List (DFrame × List String)) (gcol g1 g2 : String) :
    List CompResult :=
  tables.flatMap fun t => run_comparisons tt rt t.1 t.2 gcol g1 g2

/-- The `results_role` block of Comparison.py: collect every comparison
over all supplied tables, then — `if results_role:` — run `bh_fdr` once
over the full p-value vector and write the corrections back in order. -/
def results_role (tt : List ℚ → List ℚ → ℚ × ℚ) (rt : ℚ → ℚ)
    (tables : List (DFrame × List String)) (gcol g1 g2 : String)
    (alpha : ℚ) : List CorrectedResult :=
  let rs := collected_results tt rt tables gcol g1 g2
  if rs.isEmpty then [] else attach_fdr rs alpha

/-! The event-anchored early-warning analyzer of event_linking_basic.py. -/

/-- Module constants of event_linking_basic.py. -/
def PRE_START : ℤ := -7

/-- End of the pre-event window, relative to the event day. -/
def PRE_END : ℤ := -1

/-- Start of the baseline window, relative to the event day. -/
def BASE_START : ℤ := -30

/-- End of the baseline window, relative to the event day. -/
def BASE_END : ℤ := -14

/-- `PCT_DROP_THRESHOLD = -0.15`. -/
def PCT_DROP_THRESHOLD : ℚ := -15 / 100

/-- `SD_DROP_THRESHOLD = -0.50`. -/
def SD_DROP_THRESHOLD : ℚ := -1 / 2

/-- `METRICS` of event_linking_basic.py. -/
def METRICS : List String :=
  ["percent_active", "total_steps", "mean_hr", "sleep_duration"]

/-- The frozen `Windows` dataclass, defaults from the module constants. -/
structure Windows where
  pre_start : ℤ := PRE_START
  pre_end : ℤ := PRE_END
  base_start : ℤ := BASE_START
  base_end : ℤ := BASE_END
deriving DecidableEq

/-- One row of the per-participant physiological frame:
`STUDY_PRTCPT_ID`, `DaysFromTransplant` (`none` after a failed
`pd.to_numeric(..., errors="coerce")`), and the metric cells. -/
structure PRow where
  pid : String
  day : Option ℚ
  cells : List (String × Option ℚ)
deriving DecidableEq

/-- The physiological frame: columns plus rows. -/
structure PFrame where
  cols : List String
  rows : List PRow
deriving DecidableEq

/-- Read a metric cell of a row (a column absent from the row is NA). -/
def pcell (r : PRow) (c : String) : Option ℚ := (r.cells.lookup c).join

/-- The boolean mask `(day >= event_day + lo) & (day <= event_day + hi)`;
a NaN day compares false on both sides. -/
def inWin (e lo hi : ℤ) (r : PRow) : Bool :=
  match r.day with
  | some d => decide (((e + lo : ℤ) : ℚ) ≤ d) && decide (d ≤ ((e + hi : ℤ) : ℚ))
  | none => false

/-- `pre = p[(day >= event_day + w.pre_start) & (day <= event_day + w.pre_end)]`. -/
def preWin (p : PFrame) (e : ℤ) (w : Windows) : List PRow :=
  p.rows.filter (inWin e w.pre_start w.pre_end)

/-- The baseline-window row selection of `summarize_event`. -/
def baseWin (p : PFrame) (e : ℤ) (w : Windows) : List PRow :=
  p.rows.filter (inWin e w.base_start w.base_end)

/-- `window[m].dropna()`: the non-missing values of metric `m` over a row
selection, in row order. -/
def metricVals (rows : List PRow) (m : String) : List ℚ :=
  rows.filterMap fun r => pcell r m

/-- One dict appended to `rows` by `summarize_event`. -/
structure WinRow where
  metric : String
  baseline_mean : ℚ
  baseline_sd : ℚ
  pre7_mean : ℚ
  delta_pre_minus_base : ℚ
  pct_change : Option ℚ
  sd_change : Option ℚ
  warn_pct_drop : Bool
  warn_sd_drop : Bool
deriving DecidableEq

/-- `summarize_event(p, event_day, metrics, w)` of event_linking_basic.py.
Whole-event guard: fewer than 2 rows in either window returns no rows.
Per metric: skip if the column is missing or either window has fewer than
2 non-missing values; `pct`/`sdchg` are NaN (`none`) unless
`b_mean != 0` resp. `b_sd > 0` (the source's `pd.notna` guards cannot fire
over ℚ on ≥ 2 clean values); the warn flags are
`bool(pd.notna(v) and v <= THRESHOLD)`. -/
def summarize_event (rt : ℚ → ℚ) (p : PFrame) (e : ℤ)
    (metrics : List String) (w : Windows) : List WinRow :=
  let pre := preWin p e w
  let base := baseWin p e w
  if pre.length < 2 ∨ base.length < 2 then []
  else
    metrics.filterMap fun m =>
      if m ∉ p.cols then none
      else
        let pre_vals := metricVals pre m
        let base_vals := metricVals base m
        if pre_vals.length < 2 ∨ base_vals.length < 2 then none
        else
          let b_mean := seriesMean base_vals
          let b_sd := seriesStd rt base_vals
          let p_mean := seriesMean pre_vals
          let pct : Option ℚ :=
            if b_mean ≠ 0 then some ((p_mean - b_mean) / b_mean) else none
          let sdchg : Option ℚ :=
            if 0 < b_sd then some ((p_mean - b_mean) / b_sd) else none
          some
            { metric := m
              baseline_mean := b_mean, baseline_sd := b_sd
              pre7_mean := p_mean, delta_pre_minus_base := p_mean - b_mean
              pct_change := pct, sd_change := sdchg
              warn_pct_drop := pct.elim false fun v => decide (v ≤ PCT_DROP_THRESHOLD)
              warn_sd_drop := sdchg.elim false fun v => decide (v ≤ SD_DROP_THRESHOLD) }

/-- A summary row after `r.update({"STUDY_PRTCPT_ID": pid, "event_day": e_day})`. -/
structure OutRow where
  row : WinRow
  pid : String
  event_day : ℤ
deriving DecidableEq

/-- Python `int()` applied to a float: truncation toward zero. -/
def truncQ (q : ℚ) : ℤ := if 0 ≤ q then ⌊q⌋ else ⌈q⌉

/-- `compute_summary(physio, events)` of event_linking_basic.py: for each
event, truncate the event day (`int(ev["event_day"])`), slice the
participant's rows, skip an empty slice, and collect the summaries tagged
with participant and (truncated) event day. -/
def compute_summary (rt : ℚ → ℚ) (physio : PFrame)
    (events : List (String × ℚ)) : List OutRow :=
  events.flatMap fun ev =>
    let pid := ev.1
    let e := truncQ ev.2
    let p : PFrame := ⟨physio.cols, physio.rows.filter fun r => r.pid == pid⟩
    if p.rows.isEmpty then []
    else (summarize_event rt p e METRICS {}).map fun r => ⟨r, pid, e⟩

/-! Concrete instances used by the witnesses. -/

/-- A stand-in for the external square root (tests only guards, never the
root's value). -/
def rt0 : ℚ → ℚ := fun _ => 0

/-- A stand-in external Welch test returning a fixed `(t, p)`. -/
def tt0 : List ℚ → List ℚ → ℚ × ℚ := fun _ _ => (0, 1 / 2)

/-- A concrete participant frame: baseline days −20, −15 (steps 98, 102:
mean 100), pre-event days −7, −2 (steps 84, 86: mean 85) for an event on
day 0, so the percent change is exactly −15 % — the flag boundary. -/
def EF : PFrame :=
  ⟨["total_steps"],
    [⟨"A", some (-20), [("total_steps", some 98)]⟩,
     ⟨"A", some (-15), [("total_steps", some 102)]⟩,
     ⟨"A", some (-7), [("total_steps", some 84)]⟩,
     ⟨"A", some (-2), [("total_steps", some 86)]⟩]⟩

/-- The single summary row `summarize_event` emits on `EF` at event day 0
(with `rt0`): percent change exactly −15 %, flagged inclusively. -/
def r0 : WinRow :=
  { metric := "total_steps"
    baseline_mean := 100, baseline_sd := 0
    pre7_mean := 85, delta_pre_minus_base := -15
    pct_change := some (-3 / 20), sd_change := none
    warn_pct_drop := true, warn_sd_drop := false }

/-- A concrete comparison frame: roles and step counts for two cohorts. -/
def DF6 : DFrame :=
  ⟨["role", "total_steps"],
    [[("role", Cell.str "Patients"), ("total_steps", Cell.num 10)],
     [("role", Cell.str "Patients"), ("total_steps", Cell.num 12)],
     [("role", Cell.str "Caregivers"), ("total_steps", Cell.num 5)],
     [("role", Cell.str "Caregivers"), ("total_steps", Cell.num 6)]]⟩

/-- A participant frame arranged around the truncated event day −3 of the
fractional event day −3.5: baseline days −20, −18, pre-event days −9, −5. -/
def PF10 : PFrame :=
  ⟨["total_steps"],
    [⟨"A", some (-20), [("total_steps", some 10)]⟩,
     ⟨"A", some (-18), [("total_steps", some 14)]⟩,
     ⟨"A", some (-9), [("total_steps", some 8)]⟩,
     ⟨"A", some (-5), [("total_steps", some 9)]⟩]⟩

/-! Helper lemmas. -/

/-- Any row emitted by `summarize_event` comes from a metric of the
candidate list present in the frame whose two windows both hold at least 2
non-missing values, and the row is exactly the record the loop body
builds. -/
lemma summarize_event_mem {rt : ℚ → ℚ} {p : PFrame} {e : ℤ}
    {ms : List String} {w : Windows} {r : WinRow}
    (hr : r ∈ summarize_event rt p e ms w) :
    ∃ m, m ∈ ms ∧ m ∈ p.cols ∧
      2 ≤ (metricVals (preWin p e w) m).length ∧
      2 ≤ (metricVals (baseWin p e w) m).length ∧
      r = (let pre_vals := metricVals (preWin p e w) m
           let base_vals := metricVals (baseWin p e w) m
           let b_mean := seriesMean base_vals
           let b_sd := seriesStd rt base_vals
           let p_mean := seriesMean pre_vals
           let pct : Option ℚ :=
             if b_mean ≠ 0 then some ((p_mean - b_mean) / b_mean) else none
           let sdchg : Option ℚ :=
             if 0 < b_sd then some ((p_mean - b_mean) / b_sd) else none
           { metric := m
             baseline_mean := b_mean, baseline_sd := b_sd
             pre7_mean := p_mean, delta_pre_minus_base := p_mean - b_mean
             pct_change := pct, sd_change := sdchg
             warn_pct_drop := pct.elim false fun v => decide (v ≤ PCT_DROP_THRESHOLD)
             warn_sd_drop := sdchg.elim false fun v => decide (v ≤ SD_DROP_THRESHOLD) }) := by
  simp only [summarize_event] at hr
  by_cases hguard : (preWin p e w).length < 2 ∨ (baseWin p e w).length < 2
  · rw [if_pos hguard] at hr
    exact absurd hr (List.not_mem_nil r)
  · rw [if_neg hguard] at hr
    rw [List.mem_filterMap] at hr
    obtain ⟨m, hm, hf⟩ := hr
    by_cases hc : m ∉ p.cols
    · rw [if_pos hc] at hf
      exact absurd hf (by simp)
    · rw [if_neg hc] at hf
      by_cases hlen : (metricVals (preWin p e w) m).length < 2 ∨
          (metricVals (baseWin p e w) m).length < 2
      · rw [if_pos hlen] at hf
        exact absurd hf (by simp)
      · rw [if_neg hlen] at hf
        push_neg at hlen
        exact ⟨m, hm, not_not.mp hc, hlen.1, hlen.2, (Option.some.inj hf).symm⟩

/-! Claim theorems. -/

/-- C1 (code_bug): on the batch [0.01, 0.04, 0.20] with alpha = 0.05 the
source's `bh_fdr` returns adjusted p-values [0.01, 0.01, 0.01] and rejects
all three hypotheses, while the Benjamini–Hochberg step-up procedure its
docstring and the spec describe (`bh_step_up`, modelled from the spec)
gives [0.03, 0.06, 0.20] with rejection flags [true, false, false]: the
source divides by the reversed ranks and accumulates the minimum in the
wrong direction. -/
theorem bh_fdr_deviates_from_step_up :
    bh_fdr [1 / 100, 1 / 25, 1 / 5] (1 / 20) =
        ([true, true, true], [1 / 100, 1 / 100, 1 / 100]) ∧
      bh_step_up [1 / 100, 1 / 25, 1 / 5] (1 / 20) =
        ([true, false, false], [3 / 100, 3 / 50, 1 / 5]) := by
  constructor <;>
    · norm_num [bh_fdr, bh_step_up, argsort, insertIdx, cummin, cumminFrom,
        List.range_succ, List.indexOf_cons, List.getD, min_def, max_def,
        Bool.cond_eq_if, beq_iff_eq, List.getElem?_cons_zero,
        List.getElem?_cons_succ]

/-- C4: for samples with at least 2 non-missing values each and positive
pooled variance, `cohen_d` is antisymmetric in its two samples — for every
external square-root function. -/
theorem cohen_d_antisymm (rt : ℚ → ℚ) (x y : List (Option ℚ))
    (h1 : 2 ≤ (dropna x).length) (h2 : 2 ≤ (dropna y).length)
    (h3 : 0 < pooled_var rt (dropna x) (dropna y)) :
    cohen_d rt x y = Option.map (fun d => -d) (cohen_d rt y x) := by
  have hsym : pooled_var rt (dropna y) (dropna x) =
      pooled_var rt (dropna x) (dropna y) := by
    unfold pooled_var; ring
  have g1 : ¬((dropna x).length < 2 ∨ (dropna y).length < 2) := by omega
  have g2 : ¬((dropna y).length < 2 ∨ (dropna x).length < 2) := by omega
  simp only [cohen_d, hsym]
  rw [if_neg g1, if_neg g2, if_neg (not_le.mpr h3), if_neg (not_le.mpr h3)]
  rw [Option.map_some', ← neg_div, neg_sub]

/-- Witness for C4 at a concrete input with positive pooled variance. -/
theorem cohen_d_antisymm_witness :
    0 < pooled_var id (dropna [some 0, some 1]) (dropna [some 0, some 2]) ∧
      cohen_d id [some 0, some 1] [some 0, some 2] =
        Option.map (fun d => -d) (cohen_d id [some 0, some 2] [some 0, some 1]) :=
  ⟨by norm_num [pooled_var, seriesStd, seriesVar, seriesMean, dropna,
      List.filterMap_cons],
   cohen_d_antisymm id [some 0, some 1] [some 0, some 2]
     (by norm_num [dropna, List.filterMap_cons])
     (by norm_num [dropna, List.filterMap_cons])
     (by norm_num [pooled_var, seriesStd, seriesVar, seriesMean, dropna,
        List.filterMap_cons])⟩

/-- C5: whenever either sample has fewer than 2 non-missing values,
`welch_ttest` returns the defined result `(none, none)` — absent statistic
and absent p-value, no failure — for every external test function. -/
theorem welch_ttest_insufficient_absent (tt : List ℚ → List ℚ → ℚ × ℚ)
    (x y : List (Option ℚ))
    (h : (dropna x).length < 2 ∨ (dropna y).length < 2) :
    welch_ttest tt x y = (none, none) := by
  simp only [welch_ttest]
  rw [if_pos h]

/-- Witness for C5: a sample with a single non-missing value. -/
theorem welch_ttest_insufficient_absent_witness :
    (dropna [some 1, none]).length < 2 ∧
      welch_ttest tt0 [some 1, none] [some 1, some 2] = (none, none) :=
  ⟨by norm_num [dropna, List.filterMap_cons],
   welch_ttest_insufficient_absent tt0 [some 1, none] [some 1, some 2]
     (Or.inl (by norm_num [dropna, List.filterMap_cons]))⟩

/-- A window whose start lies after its end selects no rows. -/
lemma inWin_false_of_inverted {e lo hi : ℤ} (h : hi < lo) (r : PRow) :
    inWin e lo hi r = false := by
  unfold inWin
  cases hd : r.day with
  | none => rfl
  | some d =>
    dsimp only
    by_cases h1 : ((e + lo : ℤ) : ℚ) ≤ d
    · have h2 : ¬(d ≤ ((e + hi : ℤ) : ℚ)) := by
        intro h2
        have hle : ((e + lo : ℤ) : ℚ) ≤ ((e + hi : ℤ) : ℚ) := le_trans h1 h2
        rw [Int.cast_le] at hle
        omega
      rw [decide_eq_false h2, Bool.and_false]
    · rw [decide_eq_false h1, Bool.false_and]

/-- C3 (amended): the code performs no configuration validation and has no
error path.  A pre-event or baseline window whose start lies after its end
makes the corresponding selection empty, so `summarize_event` returns the
empty row list; a negative significance level is accepted by `bh_fdr`,
which returns normally with every rejection flag false (adjusted p-values
are clipped to `[0, 1]`, never below a negative alpha).  Execution is
never halted. -/
theorem invalid_config_degrades_gracefully (rt : ℚ → ℚ) (p : PFrame) (e : ℤ)
    (ms : List String) (w : Windows) (pvals : List ℚ) (alpha : ℚ) :
    (w.pre_end < w.pre_start → summarize_event rt p e ms w = []) ∧
    (w.base_end < w.base_start → summarize_event rt p e ms w = []) ∧
    (alpha < 0 → ∀ b ∈ (bh_fdr pvals alpha).1, b = false) := by
  refine ⟨fun h => ?_, fun h => ?_, fun ha b hb => ?_⟩
  · have hpre : preWin p e w = [] :=
      List.filter_eq_nil_iff.mpr fun r _ => by
        rw [inWin_false_of_inverted h r]; exact Bool.false_ne_true
    simp only [summarize_event, hpre]
    rw [if_pos (Or.inl (by decide))]
  · have hbase : baseWin p e w = [] :=
      List.filter_eq_nil_iff.mpr fun r _ => by
        rw [inWin_false_of_inverted h r]; exact Bool.false_ne_true
    simp only [summarize_event, hbase]
    rw [if_pos (Or.inr (by decide))]
  · simp only [bh_fdr, List.mem_map] at hb
    obtain ⟨q0, hq0, rfl⟩ := hb
    obtain ⟨q1, -, rfl⟩ := hq0
    have h0 : (0 : ℚ) ≤ min 1 (max 0 q1) :=
      le_min (by norm_num) (le_max_left 0 q1)
    exact decide_eq_false fun hle => absurd (h0.trans hle) (not_le.mpr ha)

/-- Witness for the amended C3: a fully inverted window configuration and
a negative alpha, on concrete data. -/
theorem invalid_config_degrades_gracefully_witness :
    summarize_event rt0 EF 0 METRICS ⟨-1, -7, -14, -30⟩ = [] ∧
      ∀ b ∈ (bh_fdr [1 / 2] (-1)).1, b = false :=
  ⟨(invalid_config_degrades_gracefully rt0 EF 0 METRICS ⟨-1, -7, -14, -30⟩
      [1 / 2] (-1)).1 (by decide),
   (invalid_config_degrades_gracefully rt0 EF 0 METRICS ⟨-1, -7, -14, -30⟩
      [1 / 2] (-1)).2.2 (by norm_num)⟩

/-- C3 (counterexample to the claim as stated): nothing fails fast.  With
a window configuration whose starts lie after their ends (`pre = [-1, -7]`,
`base = [-14, -30]`) `summarize_event` runs to completion and returns the
ordinary value `[]`, and with the non-positive significance level 0
`bh_fdr` runs to completion and returns an ordinary result — no
invocation-start validation, no descriptive error, no halt exists in the
code. -/
theorem no_fail_fast_on_invalid_config :
    summarize_event rt0 EF 0 METRICS ⟨-1, -7, -14, -30⟩ = [] ∧
      bh_fdr [1 / 2] 0 = ([false], [1 / 2]) := by
  constructor
  · norm_num [summarize_event, preWin, baseWin, inWin, EF, METRICS,
      List.filter_cons]
  · norm_num [bh_fdr, argsort, insertIdx, cummin, cumminFrom,
      List.range_succ, List.indexOf_cons, List.getD, min_def, max_def,
      Bool.cond_eq_if, beq_iff_eq, List.getElem?_cons_zero,
      List.getElem?_cons_succ]

/-- Stepwise evaluation of `summarize_event` on the concrete frame `EF`:
it emits exactly the row `r0`. -/
lemma summarize_event_EF_eval : summarize_event rt0 EF 0 METRICS {} = [r0] := by
  have hpre : preWin EF 0 {} =
      [⟨"A", some (-7), [("total_steps", some 84)]⟩,
       ⟨"A", some (-2), [("total_steps", some 86)]⟩] := by
    norm_num [preWin, EF, inWin, List.filter_cons, PRE_START, PRE_END]
  have hbase : baseWin EF 0 {} =
      [⟨"A", some (-20), [("total_steps", some 98)]⟩,
       ⟨"A", some (-15), [("total_steps", some 102)]⟩] := by
    norm_num [baseWin, EF, inWin, List.filter_cons, BASE_START, BASE_END]
  have hprev : metricVals
      [⟨"A", some (-7), [("total_steps", some 84)]⟩,
       ⟨"A", some (-2), [("total_steps", some 86)]⟩] "total_steps" =
      [84, 86] := by
    simp [metricVals, pcell, List.filterMap_cons, List.lookup]
  have hbasev : metricVals
      [⟨"A", some (-20), [("total_steps", some 98)]⟩,
       ⟨"A", some (-15), [("total_steps", some 102)]⟩] "total_steps" =
      [98, 102] := by
    simp [metricVals, pcell, List.filterMap_cons, List.lookup]
  rw [summarize_event, hpre, hbase]
  simp [METRICS, EF, List.filterMap_cons, hprev, hbasev,
    seriesMean, seriesStd, seriesVar, rt0]
  norm_num [r0, PCT_DROP_THRESHOLD, SD_DROP_THRESHOLD]

/-- C7: every emitted `WinRow` has at least 2 non-missing values of its
metric in both the pre-event window and the baseline window; in
particular a baseline window with exactly 1 non-missing value yields no
row for that metric. -/
theorem summarize_event_min_counts (rt : ℚ → ℚ) (p : PFrame) (e : ℤ)
    (ms : List String) (w : Windows) (r : WinRow)
    (hr : r ∈ summarize_event rt p e ms w) :
    2 ≤ (metricVals (preWin p e w) r.metric).length ∧
      2 ≤ (metricVals (baseWin p e w) r.metric).length := by
  obtain ⟨m, _, _, h1, h2, hrec⟩ := summarize_event_mem hr
  subst hrec
  exact ⟨h1, h2⟩

/-- The emitted row of the concrete frame `EF`, and the C7 window counts
at it. -/
theorem summarize_event_min_counts_witness :
    r0 ∈ summarize_event rt0 EF 0 METRICS {} ∧
      2 ≤ (metricVals (preWin EF 0 {}) r0.metric).length ∧
        2 ≤ (metricVals (baseWin EF 0 {}) r0.metric).length := by
  have hmem : r0 ∈ summarize_event rt0 EF 0 METRICS {} := by
    rw [summarize_event_EF_eval]
    exact List.mem_singleton.mpr rfl
  exact ⟨hmem, summarize_event_min_counts rt0 EF 0 METRICS {} r0 hmem⟩

/-- C8: in every emitted row, `pct_change` is the recorded delta divided
by the recorded baseline mean exactly when that mean is non-zero and
absent when it is zero, and `sd_change` is the delta divided by the
recorded baseline SD exactly when that SD is positive and absent
otherwise — the guarded divisions of `summarize_event`. -/
theorem summarize_event_division_guards (rt : ℚ → ℚ) (p : PFrame) (e : ℤ)
    (ms : List String) (w : Windows) (r : WinRow)
    (hr : r ∈ summarize_event rt p e ms w) :
    (r.baseline_mean ≠ 0 →
        r.pct_change = some (r.delta_pre_minus_base / r.baseline_mean)) ∧
    (r.baseline_mean = 0 → r.pct_change = none) ∧
    (0 < r.baseline_sd →
        r.sd_change = some (r.delta_pre_minus_base / r.baseline_sd)) ∧
    (r.baseline_sd ≤ 0 → r.sd_change = none) := by
  obtain ⟨m, _, _, _, _, hrec⟩ := summarize_event_mem hr
  subst hrec
  dsimp only
  refine ⟨fun h => ?_, fun h => ?_, fun h => ?_, fun h => ?_⟩
  · rw [if_pos h]
  · rw [if_neg (not_not_intro h)]
  · rw [if_pos h]
  · rw [if_neg (not_lt.mpr h)]

/-- Witness for C8 at the emitted row of `EF`: non-zero baseline mean
gives the quotient, non-positive baseline SD gives an absent
`sd_change`. -/
theorem summarize_event_division_guards_witness :
    r0.pct_change = some (r0.delta_pre_minus_base / r0.baseline_mean) ∧
      r0.sd_change = none := by
  have hmem : r0 ∈ summarize_event rt0 EF 0 METRICS {} := by
    rw [summarize_event_EF_eval]
    exact List.mem_singleton.mpr rfl
  have h := summarize_event_division_guards rt0 EF 0 METRICS {} r0 hmem
  refine ⟨?_, h.2.2.2 (by norm_num [r0])⟩
  have h1 := h.1 (by norm_num [r0])
  exact h1

/-- C9: in every emitted row, `warn_pct_drop` is true exactly when
`pct_change` is present and at most the −15 % threshold (inclusive), and
`warn_sd_drop` is true exactly when `sd_change` is present and at most the
−0.50 threshold; each flag depends only on its own change field. -/
theorem summarize_event_flag_iff (rt : ℚ → ℚ) (p : PFrame) (e : ℤ)
    (ms : List String) (w : Windows) (r : WinRow)
    (hr : r ∈ summarize_event rt p e ms w) :
    (r.warn_pct_drop = true ↔
        ∃ v, r.pct_change = some v ∧ v ≤ PCT_DROP_THRESHOLD) ∧
    (r.warn_sd_drop = true ↔
        ∃ v, r.sd_change = some v ∧ v ≤ SD_DROP_THRESHOLD) := by
  obtain ⟨m, _, _, _, _, hrec⟩ := summarize_event_mem hr
  subst hrec
  dsimp only
  constructor
  · by_cases hB : seriesMean (metricVals (baseWin p e w) m) ≠ 0
    · rw [if_pos hB]; simp
    · rw [if_neg hB]; simp
  · by_cases hS : 0 < seriesStd rt (metricVals (baseWin p e w) m)
    · rw [if_pos hS]; simp
    · rw [if_neg hS]; simp

/-- Witness for C9 at the emitted row of `EF`, whose percent change sits
exactly on the −15 % boundary: the inclusive comparison flags it. -/
theorem summarize_event_flag_iff_witness : r0.warn_pct_drop = true := by
  have hmem : r0 ∈ summarize_event rt0 EF 0 METRICS {} := by
    rw [summarize_event_EF_eval]
    exact List.mem_singleton.mpr rfl
  exact (summarize_event_flag_iff rt0 EF 0 METRICS {} r0 hmem).1.mpr
    ⟨-3 / 20, by norm_num [r0], by norm_num [PCT_DROP_THRESHOLD]⟩

/-- Python `int()` of a value that is already an integer is that
integer. -/
lemma truncQ_intCast (z : ℤ) : truncQ (z : ℚ) = z := by
  unfold truncQ
  split
  · exact Int.floor_intCast z
  · exact Int.ceil_intCast z

/-- C10: `compute_summary` truncates each event day toward zero before
anchoring the windows — running it on a fractional event day gives
exactly the rows of the truncated integer day, and every emitted row
records the truncated day. -/
theorem compute_summary_truncates_event_day (rt : ℚ → ℚ) (physio : PFrame)
    (pid : String) (q : ℚ) :
    compute_summary rt physio [(pid, q)] =
        compute_summary rt physio [(pid, ((truncQ q : ℤ) : ℚ))] ∧
      ∀ r ∈ compute_summary rt physio [(pid, q)], r.event_day = truncQ q := by
  constructor
  · simp only [compute_summary, List.flatMap_cons, List.flatMap_nil,
      List.append_nil, truncQ_intCast]
  · intro r hr
    simp only [compute_summary, List.flatMap_cons, List.flatMap_nil,
      List.append_nil] at hr
    by_cases hemp :
        ((⟨physio.cols, physio.rows.filter fun r => r.pid == pid⟩ :
          PFrame).rows.isEmpty) = true
    · rw [if_pos hemp] at hr
      exact absurd hr (List.not_mem_nil r)
    · rw [if_neg hemp] at hr
      obtain ⟨v, _, rfl⟩ := List.mem_map.mp hr
      rfl

/-- The row `compute_summary` emits on `PF10` for the fractional event
day −3.5 (anchored at the truncated day −3). -/
def r10 : WinRow :=
  { metric := "total_steps"
    baseline_mean := 12, baseline_sd := 0
    pre7_mean := 17 / 2, delta_pre_minus_base := -7 / 2
    pct_change := some (-7 / 24), sd_change := none
    warn_pct_drop := true, warn_sd_drop := false }

/-- The tagged output row for the event at day −3.5 of participant A. -/
def or10 : OutRow := ⟨r10, "A", -3⟩

/-- Stepwise evaluation of `compute_summary` on `PF10` at the fractional
event day −3.5. -/
lemma compute_summary_PF10_eval :
    compute_summary rt0 PF10 [("A", -7 / 2)] = [or10] := by
  have htr : truncQ (-7 / 2 : ℚ) = -3 := by
    unfold truncQ
    rw [if_neg (by norm_num), Int.ceil_eq_iff]
    norm_num
  have hfil : PF10.rows.filter (fun r => r.pid == "A") = PF10.rows := by
    simp [PF10, List.filter_cons]
  have hpre : preWin ⟨PF10.cols, PF10.rows⟩ (-3) {} =
      [⟨"A", some (-9), [("total_steps", some 8)]⟩,
       ⟨"A", some (-5), [("total_steps", some 9)]⟩] := by
    norm_num [preWin, PF10, inWin, List.filter_cons, PRE_START, PRE_END]
  have hbase : baseWin ⟨PF10.cols, PF10.rows⟩ (-3) {} =
      [⟨"A", some (-20), [("total_steps", some 10)]⟩,
       ⟨"A", some (-18), [("total_steps", some 14)]⟩] := by
    norm_num [baseWin, PF10, inWin, List.filter_cons, BASE_START, BASE_END]
  have hprev : metricVals
      [⟨"A", some (-9), [("total_steps", some 8)]⟩,
       ⟨"A", some (-5), [("total_steps", some 9)]⟩] "total_steps" =
      [8, 9] := by
    simp [metricVals, pcell, List.filterMap_cons, List.lookup]
  have hbasev : metricVals
      [⟨"A", some (-20), [("total_steps", some 10)]⟩,
       ⟨"A", some (-18), [("total_steps", some 14)]⟩] "total_steps" =
      [10, 14] := by
    simp [metricVals, pcell, List.filterMap_cons, List.lookup]
  have hsumm : summarize_event rt0 ⟨PF10.cols, PF10.rows⟩ (-3) METRICS {} =
      [r10] := by
    rw [summarize_event, hpre, hbase]
    simp [METRICS, PF10, List.filterMap_cons, hprev, hbasev,
      seriesMean, seriesStd, seriesVar, rt0]
    norm_num [r10, PCT_DROP_THRESHOLD, SD_DROP_THRESHOLD]
  simp only [compute_summary, List.flatMap_cons, List.flatMap_nil,
    List.append_nil, htr, hfil, hsumm]
  simp [PF10, or10]

/-- Witness for C10: the fractional event day −3.5 is anchored exactly
like the toward-zero truncation −3 (not the floor −4), and the emitted
row records event day −3. -/
theorem compute_summary_truncates_event_day_witness :
    compute_summary rt0 PF10 [("A", -7 / 2)] =
        compute_summary rt0 PF10 [("A", ((-3 : ℤ) : ℚ))] ∧
      or10.event_day = -3 ∧ truncQ (-7 / 2) = -3 := by
  have htr : truncQ (-7 / 2 : ℚ) = -3 := by
    unfold truncQ
    rw [if_neg (by norm_num), Int.ceil_eq_iff]
    norm_num
  refine ⟨?_, ?_, htr⟩
  · have h := (compute_summary_truncates_event_day rt0 PF10 "A" (-7 / 2)).1
    rw [htr] at h
    exact h
  · have hmem : or10 ∈ compute_summary rt0 PF10 [("A", -7 / 2)] := by
      rw [compute_summary_PF10_eval]
      exact List.mem_singleton.mpr rfl
    have h2 := (compute_summary_truncates_event_day rt0 PF10 "A"
      (-7 / 2)).2 or10 hmem
    rw [h2, htr]

/-- Both outputs of `bh_fdr` have the length of the input batch. -/
lemma bh_fdr_snd_length (pvals : List ℚ) (alpha : ℚ) :
    (bh_fdr pvals alpha).2.length = pvals.length := by
  simp [bh_fdr]

/-- The rejection vector of `bh_fdr` has the length of the input batch. -/
lemma bh_fdr_fst_length (pvals : List ℚ) (alpha : ℚ) :
    (bh_fdr pvals alpha).1.length = pvals.length := by
  simp [bh_fdr]

/-- Projections of the index-aligned write-back: zipping equal-length
lists and projecting each component back recovers the inputs. -/
lemma zip_mk_proj (rs : List CompResult) :
    ∀ (u : List ℚ) (v : List Bool), rs.length = u.length →
      rs.length = v.length →
      (((rs.zip (u.zip v)).map fun x =>
          (⟨x.1, x.2.1, x.2.2⟩ : CorrectedResult)).map (fun c => c.base) = rs ∧
       ((rs.zip (u.zip v)).map fun x =>
          (⟨x.1, x.2.1, x.2.2⟩ : CorrectedResult)).map
            (fun c => c.p_adj_fdr) = u ∧
       ((rs.zip (u.zip v)).map fun x =>
          (⟨x.1, x.2.1, x.2.2⟩ : CorrectedResult)).map
            (fun c => c.reject_fdr) = v) := by
  induction rs with
  | nil =>
    intro u v h1 h2
    obtain rfl := List.length_eq_zero.mp h1.symm
    obtain rfl := List.length_eq_zero.mp h2.symm
    simp
  | cons r rs ih =>
    intro u v h1 h2
    cases u with
    | nil => simp at h1
    | cons a u =>
      cases v with
      | nil => simp at h2
      | cons b v =>
        have h := ih u v (by simpa using h1) (by simpa using h2)
        simp only [List.zip_cons_cons, List.map_cons]
        exact ⟨by rw [h.1], by rw [h.2.1], by rw [h.2.2]⟩

/-- C2: one invocation of the driver corrects exactly once, over the
complete collected p-value vector, after all per-metric tests: projecting
the corrected output gives back the collected results in order, and the
written `p_adj_fdr` / `reject_fdr` columns are exactly the two outputs of
`bh_fdr` on the full batch, index for index — no result is ever corrected
in isolation or against a sub-batch. -/
theorem results_role_corrects_full_batch_once (tt : List ℚ → List ℚ → ℚ × ℚ)
    (rt : ℚ → ℚ) (tables : List (DFrame × List String)) (gcol g1 g2 : String)
    (alpha : ℚ) :
    (results_role tt rt tables gcol g1 g2 alpha).map (fun c => c.base) =
        collected_results tt rt tables gcol g1 g2 ∧
      (results_role tt rt tables gcol g1 g2 alpha).map (fun c => c.p_adj_fdr) =
        (bh_fdr ((collected_results tt rt tables gcol g1 g2).map fun r =>
            r.p_value.getD 0) alpha).2 ∧
      (results_role tt rt tables gcol g1 g2 alpha).map (fun c => c.reject_fdr) =
        (bh_fdr ((collected_results tt rt tables gcol g1 g2).map fun r =>
            r.p_value.getD 0) alpha).1 := by
  by_cases h : (collected_results tt rt tables gcol g1 g2).isEmpty
  · have hnil : collected_results tt rt tables gcol g1 g2 = [] :=
      List.isEmpty_iff.mp h
    have hbh : bh_fdr ([] : List ℚ) alpha = ([], []) := rfl
    simp only [results_role, h, if_pos, hnil, List.map_nil, hbh]
    simp
  · simp only [results_role, h, if_neg, attach_fdr, Bool.false_eq_true,
      not_false_eq_true]
    exact zip_mk_proj _ _ _ (by rw [bh_fdr_snd_length, List.length_map])
      (by rw [bh_fdr_fst_length, List.length_map])

/-- A result produced by `compare_groups` records the metric it was
called with. -/
lemma compare_groups_metric {tt : List ℚ → List ℚ → ℚ × ℚ} {rt : ℚ → ℚ}
    {df : DFrame} {m gcol g1 g2 : String} {r : CompResult}
    (h : compare_groups tt rt df m gcol g1 g2 = some r) : r.metric = m := by
  simp only [compare_groups] at h
  by_cases h1 : m ∉ df.cols ∨ gcol ∉ df.cols
  · rw [if_pos h1] at h; cases h
  · rw [if_neg h1] at h
    by_cases h2 : (cohortVals df gcol g1 m).length < 2 ∨
        (cohortVals df gcol g2 m).length < 2
    · rw [if_pos h2] at h; cases h
    · rw [if_neg h2] at h
      have hrec := Option.some.inj h
      subst hrec
      rfl

/-- `compare_groups` yields a result exactly when the metric exists and
both cohorts have at least 2 usable values (given the grouping column
exists). -/
lemma compare_groups_isSome_iff (tt : List ℚ → List ℚ → ℚ × ℚ) (rt : ℚ → ℚ)
    (df : DFrame) (m gcol g1 g2 : String) (hg : gcol ∈ df.cols) :
    (compare_groups tt rt df m gcol g1 g2).isSome = true ↔
      (m ∈ df.cols ∧ 2 ≤ (cohortVals df gcol g1 m).length ∧
        2 ≤ (cohortVals df gcol g2 m).length) := by
  simp only [compare_groups]
  by_cases h1 : m ∉ df.cols ∨ gcol ∉ df.cols
  · rw [if_pos h1]
    simp only [Option.isSome_none, Bool.false_eq_true, false_iff]
    rintro ⟨hm, -, -⟩
    rcases h1 with h | h
    · exact h hm
    · exact h hg
  · rw [if_neg h1]
    push_neg at h1
    by_cases h2 : (cohortVals df gcol g1 m).length < 2 ∨
        (cohortVals df gcol g2 m).length < 2
    · rw [if_pos h2]
      simp only [Option.isSome_none, Bool.false_eq_true, false_iff]
      rintro ⟨-, ha, hb⟩
      rcases h2 with h | h <;> omega
    · rw [if_neg h2]
      push_neg at h2
      simp only [Option.isSome_some, true_iff]
      exact ⟨h1.1, h2.1, h2.2⟩

/-- Every row of the collection loop carries a metric of the candidate
list. -/
lemma run_comparisons_metric_mem {tt : List ℚ → List ℚ → ℚ × ℚ} {rt : ℚ → ℚ}
    {df : DFrame} {ms : List String} {gcol g1 g2 : String} {r : CompResult}
    (h : r ∈ run_comparisons tt rt df ms gcol g1 g2) : r.metric ∈ ms := by
  simp only [run_comparisons, List.mem_filterMap] at h
  obtain ⟨m, hm, hsome⟩ := h
  rw [compare_groups_metric hsome]
  exact List.mem_of_mem_filter hm

/-- C6: for a duplicate-free candidate list, the collection loop emits
exactly one row for a candidate metric when the metric is a column of the
table and both labeled cohorts keep at least 2 values after dropping
missing ones, and no row at all otherwise (in particular for a metric
absent from the table) — and the whole batch always completes. -/
theorem run_comparisons_one_row_iff (tt : List ℚ → List ℚ → ℚ × ℚ)
    (rt : ℚ → ℚ) (df : DFrame) (ms : List String) (gcol g1 g2 m : String)
    (hg : gcol ∈ df.cols) (hnd : ms.Nodup) (hm : m ∈ ms) :
    ((run_comparisons tt rt df ms gcol g1 g2).filter fun r =>
        r.metric == m).length =
      if m ∈ df.cols ∧ 2 ≤ (cohortVals df gcol g1 m).length ∧
          2 ≤ (cohortVals df gcol g2 m).length then 1 else 0 := by
  induction ms with
  | nil => cases hm
  | cons m0 ms ih =>
    rw [List.nodup_cons] at hnd
    have hrun : run_comparisons tt rt df (m0 :: ms) gcol g1 g2 =
        (if m0 ∈ df.cols then
            (compare_groups tt rt df m0 gcol g1 g2).toList
          else []) ++ run_comparisons tt rt df ms gcol g1 g2 := by
      simp only [run_comparisons, List.filter_cons]
      by_cases hc : m0 ∈ df.cols
      · rw [if_pos (by simpa using hc), if_pos hc, List.filterMap_cons]
        cases hcg : compare_groups tt rt df m0 gcol g1 g2 <;> simp
      · rw [if_neg (by simpa using hc), if_neg hc]
        simp
    rw [hrun, List.filter_append, List.length_append]
    rcases List.mem_cons.mp hm with rfl | hm'
    · have htail : (run_comparisons tt rt df ms gcol g1 g2).filter
          (fun r => r.metric == m) = [] := by
        rw [List.filter_eq_nil_iff]
        intro r hr
        have hmem := run_comparisons_metric_mem hr
        simp only [beq_iff_eq, decide_eq_true_eq]
        intro heq
        exact hnd.1 (heq ▸ hmem)
      rw [htail]
      by_cases hc : m ∈ df.cols
      · rw [if_pos hc]
        cases hcg : compare_groups tt rt df m gcol g1 g2 with
        | none =>
          have hno : ¬(m ∈ df.cols ∧ 2 ≤ (cohortVals df gcol g1 m).length ∧
              2 ≤ (cohortVals df gcol g2 m).length) := by
            intro hcond
            have hs := (compare_groups_isSome_iff tt rt df m gcol g1 g2
              hg).mpr hcond
            rw [hcg] at hs
            cases hs
          rw [if_neg hno]
          simp
        | some r =>
          have hcond := (compare_groups_isSome_iff tt rt df m gcol g1 g2
            hg).mp (by rw [hcg]; rfl)
          rw [if_pos hcond]
          have hbeq : (r.metric == m) = true :=
            beq_iff_eq.mpr (compare_groups_metric hcg)
          simp [List.filter_cons, hbeq]
      · have hno : ¬(m ∈ df.cols ∧ 2 ≤ (cohortVals df gcol g1 m).length ∧
            2 ≤ (cohortVals df gcol g2 m).length) := fun hcond => hc hcond.1
        rw [if_neg hc, if_neg hno]
        simp
    · have hne : m ≠ m0 := fun h => hnd.1 (h ▸ hm')
      have hhead : ((if m0 ∈ df.cols then
          (compare_groups tt rt df m0 gcol g1 g2).toList else []).filter
            fun r => r.metric == m) = [] := by
        rw [List.filter_eq_nil_iff]
        intro r hr
        simp only [beq_iff_eq, decide_eq_true_eq]
        intro heq
        by_cases hc : m0 ∈ df.cols
        · rw [if_pos hc] at hr
          cases hcg : compare_groups tt rt df m0 gcol g1 g2 with
          | none => rw [hcg] at hr; cases hr
          | some r0 =>
            rw [hcg] at hr
            have : r = r0 := by simpa using hr
            subst this
            exact hne (heq ▸ compare_groups_metric hcg)
        · rw [if_neg hc] at hr
          cases hr
      rw [hhead]
      simpa using ih hnd.2 hm'

/-- Witness for C6 on the concrete frame `DF6`: the metric
`"total_steps"` (2 usable values per cohort) yields exactly one row; the
requested metric `"mood"` is absent from the table and the batch still
completes. -/
theorem run_comparisons_one_row_iff_witness :
    ((run_comparisons tt0 rt0 DF6 ["total_steps", "mood"] "role" "Patients"
        "Caregivers").filter fun r => r.metric == "total_steps").length = 1 := by
  have hvals1 : cohortVals DF6 "role" "Patients" "total_steps" = [10, 12] := by
    simp [cohortVals, DF6, cellOf, List.filter_cons, List.filterMap_cons,
      List.lookup]
  have hvals2 : cohortVals DF6 "role" "Caregivers" "total_steps" = [5, 6] := by
    simp [cohortVals, DF6, cellOf, List.filter_cons, List.filterMap_cons,
      List.lookup]
  have h := run_comparisons_one_row_iff tt0 rt0 DF6 ["total_steps", "mood"]
    "role" "Patients" "Caregivers" "total_steps" (by simp [DF6]) (by simp)
    (by simp)
  rw [h, if_pos ⟨by simp [DF6], by rw [hvals1]; norm_num,
    by rw [hvals2]; norm_num⟩]

